import Mathlib

/-!
Verification of the transaction engine (`src/main.rs`).

The development shallowly embeds the Rust source: `rust_decimal::Decimal`
values are modelled as an integer mantissa with a decimal scale (`Dec`),
the two `HashMap`s of `Engine` as functions into `Option`, and each event
handler (`deposit`, `withdrawal`, `dispute`, `resolve`, `chargeback`,
`apply`) as a pure state transformer mirroring the Rust control flow,
including the early returns.  `parse_amount` and the output formatting
closure `fmt` from `main` are embedded as well.
-/

namespace TransactionEngine

/-- `str::trim` from Rust: drop whitespace from both ends (the whitespace
characters arising in this development are ASCII, where Rust's and Lean's
whitespace predicates agree). -/
def rustTrim (s : String) : String :=
  ⟨((s.data.dropWhile Char.isWhitespace).reverse.dropWhile Char.isWhitespace).reverse⟩

/-- Model of `rust_decimal::Decimal`: value `m / 10 ^ s`.  `m` is the signed
mantissa and `s` the scale (number of stored fractional digits).  The Rust
type caps the mantissa at 96 bits and the scale at 28 and panics (or
errors) past the cap; the executions in this development stay far below
the cap, where arithmetic is exact, so the model uses unbounded integers. -/
structure Dec where
  m : Int
  s : Nat
deriving DecidableEq

/-- `Decimal::ZERO`, also the value of `Decimal::default()` (mantissa 0, scale 0). -/
def Dec.zero : Dec := ⟨0, 0⟩

/-- The rational value a `Dec` denotes. -/
def Dec.val (d : Dec) : ℚ := (d.m : ℚ) / 10 ^ d.s

/-- Addition of decimals: the result carries the larger scale, as
`rust_decimal`'s `Add` does (rescale the smaller-scale operand up, add
mantissas). -/
def Dec.add (a b : Dec) : Dec :=
  let t := max a.s b.s
  ⟨a.m * 10 ^ (t - a.s) + b.m * 10 ^ (t - b.s), t⟩

/-- Subtraction of decimals, scale handled as in `Dec.add`. -/
def Dec.sub (a b : Dec) : Dec :=
  let t := max a.s b.s
  ⟨a.m * 10 ^ (t - a.s) - b.m * 10 ^ (t - b.s), t⟩

/-- Numeric strict order on decimals (`<` on `Decimal` compares values,
not representations). -/
def Dec.lt (a b : Dec) : Prop := a.m * 10 ^ b.s < b.m * 10 ^ a.s

/-- Numeric order on decimals (`<=` on `Decimal`). -/
def Dec.le (a b : Dec) : Prop := a.m * 10 ^ b.s ≤ b.m * 10 ^ a.s

instance (a b : Dec) : Decidable (a.lt b) := by
  unfold Dec.lt; infer_instance

instance (a b : Dec) : Decidable (a.le b) := by
  unfold Dec.le; infer_instance

/-- Round a nonnegative mantissa at divisor `k` with banker's rounding
(round half to even), the default strategy of `round_dp`. -/
def bankersRound (n k : Nat) : Nat :=
  let q := n / k
  let r := n % k
  if 2 * r > k then q + 1
  else if 2 * r < k then q
  else if q % 2 = 0 then q else q + 1

/-- `Decimal::round_dp(dp)`: a value whose scale is at most `dp` is
returned unchanged (no padding); otherwise the mantissa is rounded
half-to-even down to scale `dp`.  (The Rust short-circuit for zero agrees
with both branches.) -/
def Dec.roundDp (d : Dec) (dp : Nat) : Dec :=
  if d.s ≤ dp then d
  else
    let k := 10 ^ (d.s - dp)
    let q := bankersRound d.m.natAbs k
    ⟨if d.m < 0 then -(q : Int) else (q : Int), dp⟩

/-- Decimal digits of a natural number, most significant first (`fuel`
bounds the recursion; callers pass `n + 1`, always enough). -/
def natDigits : Nat → Nat → List Char
  | 0, _ => []
  | fuel + 1, n =>
    if n < 10 then [Char.ofNat (48 + n)]
    else natDigits fuel (n / 10) ++ [Char.ofNat (48 + n % 10)]

/-- `Decimal::to_string()`: sign, then the mantissa digits with a decimal
point inserted `s` digits from the right (zero-padded on the left when the
mantissa has at most `s` digits); a scale of 0 prints no decimal point. -/
def Dec.render (d : Dec) : String :=
  let sign : List Char := if d.m < 0 then ['-'] else []
  let digs := natDigits (d.m.natAbs + 1) d.m.natAbs
  if d.s = 0 then ⟨sign ++ digs⟩
  else
    let digs := List.replicate (d.s + 1 - digs.length) '0' ++ digs
    ⟨sign ++ digs.take (digs.length - d.s) ++ '.' :: digs.drop (digs.length - d.s)⟩

/-- Digit/dot/underscore scanner of `rust_decimal`'s `parse_str_radix_10`
after the sign: accumulates the mantissa and counts fractional digits.
`seenDot`/`seenDigit` track whether a decimal point, respectively any
digit, has been consumed.  Errors mirror the Rust ones: a second decimal
point, an underscore before any digit, any other non-digit character, and
an input with no digits at all are rejected. -/
def scanDigits : List Char → Nat → Nat → Bool → Bool → Except String (Nat × Nat)
  | [], acc, frac, _, seenDigit =>
    if seenDigit then .ok (acc, frac) else .error "no digits"
  | c :: rest, acc, frac, seenDot, seenDigit =>
    if c.isDigit then
      scanDigits rest (acc * 10 + (c.toNat - 48)) (if seenDot then frac + 1 else frac)
        seenDot true
    else if c = '.' then
      if seenDot then .error "two decimal points"
      else scanDigits rest acc frac true seenDigit
    else if c = '_' then
      if seenDigit then scanDigits rest acc frac seenDot seenDigit
      else .error "must start with a number"
    else .error "unknown character"

/-- `Decimal::from_str`: optional leading sign, then digits with an
optional single decimal point and optional underscore separators.  Models
`rust_decimal`'s radix-10 string parser in the no-overflow range (every
input in this development); the 96-bit mantissa cap is not modelled. -/
def decimalFromStr (str : String) : Except String Dec :=
  match str.data with
  | [] => .error "empty"
  | c :: rest =>
    let body := if c = '-' ∨ c = '+' then rest else c :: rest
    match scanDigits body 0 0 false false with
    | .error e => .error e
    | .ok (m, sc) => .ok ⟨if c = '-' then -(m : Int) else (m : Int), sc⟩

/-- `parse_amount` from `src/main.rs`: trim, reject empty input, parse as
a decimal, reject non-positive values and scales above 4, and return the
value after `round_dp(4)`. -/
def parse_amount (amount : String) : Except String Dec :=
  let t := rustTrim amount
  if t = "" then .error "empty amount"
  else
    match decimalFromStr t with
    | .error _ => .error "bad amount"
    | .ok d =>
      if d.le Dec.zero then .error "amount must be positive"
      else if 4 < d.s then .error "too many decimal places"
      else .ok (d.roundDp 4)

deriving instance DecidableEq for Except

/-- `TransactionKind` from `src/main.rs`. -/
inductive TransactionKind where
  | Deposit
  | Withdrawal
deriving DecidableEq

/-- `Account` from `src/main.rs`. -/
structure Account where
  available : Dec
  held : Dec
  locked : Bool
deriving DecidableEq

/-- `Account::default()`: zero balances, unlocked. -/
def Account.default : Account := ⟨Dec.zero, Dec.zero, false⟩

/-- `Account::total()`: `available + held`, always computed. -/
def Account.total (a : Account) : Dec := a.available.add a.held

/-- `Transaction` from `src/main.rs`. -/
structure Transaction where
  client_id : Nat
  kind : TransactionKind
  amount : Dec
  disputed : Bool
deriving DecidableEq

/-- `InputRow` from `src/main.rs` (one deserialized CSV record). -/
structure InputRow where
  transaction_type : String
  client_id : Nat
  transaction_id : Nat
  amount : Option String

/-- `Engine` from `src/main.rs`; the two `HashMap`s are modelled as
functions into `Option`. -/
structure Engine where
  accounts : Nat → Option Account
  transactions : Nat → Option Transaction

/-- Point update of a map modelled as a function. -/
def upd {α : Type} (f : Nat → Option α) (k : Nat) (v : α) : Nat → Option α :=
  fun x => if x = k then some v else f x

/-- `Engine::default()`: both maps empty. -/
def Engine.init : Engine := ⟨fun _ => none, fun _ => none⟩

/-- `Engine::is_locked`: absent accounts count as unlocked. -/
def Engine.is_locked (e : Engine) (client_id : Nat) : Bool :=
  match e.accounts client_id with
  | some account => account.locked
  | none => false

/-- `Engine::deposit`.  Note the source stores the new transaction with
`kind: TransactionKind::Withdrawal` (main.rs line 113); the embedding
reproduces that literally. -/
def Engine.deposit (e : Engine) (client_id transaction_id : Nat)
    (amount : Option String) : Engine :=
  if e.is_locked client_id then e
  else if (e.transactions transaction_id).isSome then e
  else
    match amount with
    | none => e
    | some s =>
      match parse_amount s with
      | .error _ => e
      | .ok v =>
        let account := (e.accounts client_id).getD Account.default
        let account := { account with available := account.available.add v }
        { accounts := upd e.accounts client_id account,
          transactions := upd e.transactions transaction_id
            ⟨client_id, TransactionKind.Withdrawal, v, false⟩ }

/-- `Engine::withdrawal`.  `get_or_create_account` runs before the
insufficient-funds check, so the (possibly fresh default) account is
stored even when the withdrawal is dropped for insufficient funds. -/
def Engine.withdrawal (e : Engine) (client_id transaction_id : Nat)
    (amount : Option String) : Engine :=
  if e.is_locked client_id then e
  else if (e.transactions transaction_id).isSome then e
  else
    match amount with
    | none => e
    | some s =>
      match parse_amount s with
      | .error _ => e
      | .ok v =>
        let account := (e.accounts client_id).getD Account.default
        if account.available.lt v then
          { e with accounts := upd e.accounts client_id account }
        else
          { accounts := upd e.accounts client_id
              { account with available := account.available.sub v },
            transactions := upd e.transactions transaction_id
              ⟨client_id, TransactionKind.Withdrawal, v, false⟩ }

/-- `Engine::dispute`. -/
def Engine.dispute (e : Engine) (client_id transaction_id : Nat) : Engine :=
  if e.is_locked client_id then e
  else
    match e.transactions transaction_id with
    | none => e
    | some t =>
      if t.client_id ≠ client_id ∨ t.kind ≠ TransactionKind.Deposit ∨ t.disputed then e
      else
        let account := (e.accounts client_id).getD Account.default
        let account := { account with
          available := account.available.sub t.amount,
          held := account.held.add t.amount }
        { accounts := upd e.accounts client_id account,
          transactions := upd e.transactions transaction_id { t with disputed := true } }

/-- `Engine::resolve`.  As in `withdrawal`, the account is created before
the `held` guard, so it is stored even on the guarded early return. -/
def Engine.resolve (e : Engine) (client_id transaction_id : Nat) : Engine :=
  if e.is_locked client_id then e
  else
    match e.transactions transaction_id with
    | none => e
    | some t =>
      if t.client_id ≠ client_id ∨ t.kind ≠ TransactionKind.Deposit ∨ ¬t.disputed then e
      else
        let account := (e.accounts client_id).getD Account.default
        if account.held.lt t.amount then
          { e with accounts := upd e.accounts client_id account }
        else
          { accounts := upd e.accounts client_id
              { account with
                held := account.held.sub t.amount,
                available := account.available.add t.amount },
            transactions := upd e.transactions transaction_id { t with disputed := false } }

/-- `Engine::chargeback`: subtracts the amount from `held` (not returned to
`available`), locks the account, clears the disputed flag. -/
def Engine.chargeback (e : Engine) (client_id transaction_id : Nat) : Engine :=
  if e.is_locked client_id then e
  else
    match e.transactions transaction_id with
    | none => e
    | some t =>
      if t.client_id ≠ client_id ∨ t.kind ≠ TransactionKind.Deposit ∨ ¬t.disputed then e
      else
        let account := (e.accounts client_id).getD Account.default
        if account.held.lt t.amount then
          { e with accounts := upd e.accounts client_id account }
        else
          { accounts := upd e.accounts client_id
              { account with held := account.held.sub t.amount, locked := true },
            transactions := upd e.transactions transaction_id { t with disputed := false } }

/-- `str::to_ascii_lowercase`. -/
def asciiLowercase (s : String) : String :=
  ⟨s.data.map (fun c => if 'A' ≤ c ∧ c ≤ 'Z' then Char.ofNat (c.toNat + 32) else c)⟩

/-- `Engine::apply`: normalize the event verb and dispatch; unknown verbs
are dropped. -/
def Engine.apply (e : Engine) (row : InputRow) : Engine :=
  let t := asciiLowercase (rustTrim row.transaction_type)
  if t = "deposit" then e.deposit row.client_id row.transaction_id row.amount
  else if t = "withdrawal" then e.withdrawal row.client_id row.transaction_id row.amount
  else if t = "dispute" then e.dispute row.client_id row.transaction_id
  else if t = "resolve" then e.resolve row.client_id row.transaction_id
  else if t = "chargeback" then e.chargeback row.client_id row.transaction_id
  else e

/-- The event loop of `main`: apply the rows in input order. -/
def Engine.applyAll (e : Engine) (rows : List InputRow) : Engine :=
  rows.foldl Engine.apply e

/-- The `available` balance the code observes for a client (`Account::default`
when the account does not exist). -/
def availableOf (e : Engine) (c : Nat) : Dec :=
  ((e.accounts c).getD Account.default).available

/-- The `held` balance the code observes for a client. -/
def heldOf (e : Engine) (c : Nat) : Dec :=
  ((e.accounts c).getD Account.default).held

/-- The output-formatting closure `fmt` of `main`:
`|d| d.round_dp(4).to_string()`. -/
def fmt (d : Dec) : String := (d.roundDp 4).render

/-- Number of rendered digits after the decimal point: length of the
segment after the first `.` of the string, 0 when there is no point. -/
def countFrac (str : String) : Nat :=
  (str.data.dropWhile (fun c => c ≠ '.')).length - 1

/-- Reachability invariant of the engine: because `Engine::deposit` stores
its transaction with `kind: TransactionKind::Withdrawal` (main.rs line
113), every stored transaction has kind `Withdrawal` and is undisputed,
every account has zero `held`, is unlocked, and has nonnegative
`available`. -/
def Inv (e : Engine) : Prop :=
  (∀ tx t, e.transactions tx = some t →
    t.kind = TransactionKind.Withdrawal ∧ t.disputed = false) ∧
  (∀ c a, e.accounts c = some a →
    a.held = Dec.zero ∧ a.locked = false ∧ 0 ≤ a.available.val)

/-- The end-to-end event sequence of the spec's second end-to-end example:
deposit 10, dispute it, charge it back, then a deposit and a withdrawal. -/
def c2rows : List InputRow :=
  [⟨"deposit", 1, 1, some "10"⟩, ⟨"dispute", 1, 1, none⟩, ⟨"chargeback", 1, 1, none⟩,
   ⟨"deposit", 1, 2, some "5"⟩, ⟨"withdrawal", 1, 3, some "1"⟩]

/-- A single-deposit event sequence (concrete instantiation input). -/
def rows3 : List InputRow := [⟨"deposit", 1, 1, some "10"⟩]

/-- An engine state holding a deposit-kind transaction (concrete
instantiation input for the dispute operation). -/
def engDeposit5 : Engine :=
  ⟨fun c => if c = 1 then some ⟨⟨5, 0⟩, Dec.zero, false⟩ else none,
   fun t => if t = 1 then some ⟨1, TransactionKind.Deposit, ⟨5, 0⟩, false⟩ else none⟩

/-- An engine state whose client 1 is locked (concrete instantiation
input). -/
def engLocked : Engine :=
  ⟨fun c => if c = 1 then some ⟨Dec.zero, Dec.zero, true⟩ else none, fun _ => none⟩

/-- A deposit row naming client 1 (concrete instantiation input). -/
def depositRow : InputRow := ⟨"deposit", 1, 2, some "3"⟩

/-- An engine state whose transaction table already holds id 1 (concrete
instantiation input). -/
def engTx : Engine :=
  ⟨fun _ => none,
   fun t => if t = 1 then some ⟨1, TransactionKind.Withdrawal, ⟨10, 0⟩, false⟩ else none⟩

/-- A single deposit of `2.00` (scale-2 amount text). -/
def c10rows : List InputRow := [⟨"deposit", 1, 1, some "2.00"⟩]

/-- Rescaling a mantissa to a larger scale keeps the denoted value. -/
theorem val_shift (m : Int) (s t : Nat) (h : s ≤ t) :
    ((m * 10 ^ (t - s) : Int) : ℚ) / 10 ^ t = (m : ℚ) / 10 ^ s := by
  push_cast
  rw [div_eq_div_iff (by positivity) (by positivity), mul_assoc, ← pow_add,
    Nat.sub_add_cancel h]

/-- The zero decimal denotes 0. -/
theorem Dec.val_zero : Dec.zero.val = 0 := by
  simp [Dec.zero, Dec.val]

/-- `Dec.add` adds the denoted values. -/
theorem Dec.val_add (a b : Dec) : (a.add b).val = a.val + b.val := by
  show ((a.m * 10 ^ (max a.s b.s - a.s) + b.m * 10 ^ (max a.s b.s - b.s) : Int) : ℚ)
      / 10 ^ max a.s b.s = (a.m : ℚ) / 10 ^ a.s + (b.m : ℚ) / 10 ^ b.s
  rw [Int.cast_add, add_div, val_shift a.m a.s _ (le_max_left _ _),
    val_shift b.m b.s _ (le_max_right _ _)]

/-- `Dec.sub` subtracts the denoted values. -/
theorem Dec.val_sub (a b : Dec) : (a.sub b).val = a.val - b.val := by
  show ((a.m * 10 ^ (max a.s b.s - a.s) - b.m * 10 ^ (max a.s b.s - b.s) : Int) : ℚ)
      / 10 ^ max a.s b.s = (a.m : ℚ) / 10 ^ a.s - (b.m : ℚ) / 10 ^ b.s
  rw [Int.cast_sub, sub_div, val_shift a.m a.s _ (le_max_left _ _),
    val_shift b.m b.s _ (le_max_right _ _)]

/-- `Dec.lt` is the strict order of the denoted values. -/
theorem Dec.lt_iff (a b : Dec) : a.lt b ↔ a.val < b.val := by
  unfold Dec.lt Dec.val
  rw [div_lt_div_iff₀ (by positivity) (by positivity)]
  constructor <;> intro h <;> exact_mod_cast h

/-- `Dec.le` is the order of the denoted values. -/
theorem Dec.le_iff (a b : Dec) : a.le b ↔ a.val ≤ b.val := by
  unfold Dec.le Dec.val
  rw [div_le_div_iff₀ (by positivity) (by positivity)]
  constructor <;> intro h <;> exact_mod_cast h

/-- `round_dp` leaves a value whose scale is within the bound unchanged. -/
theorem Dec.roundDp_of_le (d : Dec) (dp : Nat) (h : d.s ≤ dp) : d.roundDp dp = d := by
  unfold Dec.roundDp
  rw [if_pos h]

/-- The scale after `round_dp dp` is at most `max dp` of the old scale,
and in particular at most `dp` whenever rounding applies. -/
theorem Dec.roundDp_s (d : Dec) (dp : Nat) :
    (d.roundDp dp).s = if d.s ≤ dp then d.s else dp := by
  unfold Dec.roundDp
  split <;> simp_all

/-- A successfully parsed amount is positive and has scale at most 4, and
is the parsed decimal unchanged (`round_dp(4)` does not pad). -/
theorem parse_amount_ok (str : String) (d : Dec) (h : parse_amount str = .ok d) :
    0 < d.val ∧ d.s ≤ 4 := by
  rw [parse_amount] at h
  split at h
  · exact absurd h (by simp)
  · split at h
    · exact absurd h (by simp)
    · split at h
      · exact absurd h (by simp)
      · split at h
        · exact absurd h (by simp)
        · rename_i d' hstr hle hs
          rw [Except.ok.injEq] at h
          have hs4 : d'.s ≤ 4 := by omega
          rw [Dec.roundDp_of_le d' 4 hs4] at h
          subst h
          refine ⟨?_, hs4⟩
          rw [Dec.le_iff, Dec.val_zero] at hle
          linarith

/-- A deposit naming a locked client is dropped with no effect. -/
theorem deposit_of_locked (e : Engine) (c tx : Nat) (amt : Option String)
    (h : e.is_locked c = true) : e.deposit c tx amt = e := by
  simp [Engine.deposit, h]

/-- A withdrawal naming a locked client is dropped with no effect. -/
theorem withdrawal_of_locked (e : Engine) (c tx : Nat) (amt : Option String)
    (h : e.is_locked c = true) : e.withdrawal c tx amt = e := by
  simp [Engine.withdrawal, h]

/-- A dispute naming a locked client is dropped with no effect. -/
theorem dispute_of_locked (e : Engine) (c tx : Nat)
    (h : e.is_locked c = true) : e.dispute c tx = e := by
  simp [Engine.dispute, h]

/-- A resolve naming a locked client is dropped with no effect. -/
theorem resolve_of_locked (e : Engine) (c tx : Nat)
    (h : e.is_locked c = true) : e.resolve c tx = e := by
  simp [Engine.resolve, h]

/-- A chargeback naming a locked client is dropped with no effect. -/
theorem chargeback_of_locked (e : Engine) (c tx : Nat)
    (h : e.is_locked c = true) : e.chargeback c tx = e := by
  simp [Engine.chargeback, h]

/-- Any event naming a locked client leaves the engine unchanged. -/
theorem apply_of_locked (e : Engine) (row : InputRow)
    (h : e.is_locked row.client_id = true) : e.apply row = e := by
  rw [Engine.apply]
  split
  · exact deposit_of_locked e _ _ _ h
  · split
    · exact withdrawal_of_locked e _ _ _ h
    · split
      · exact dispute_of_locked e _ _ h
      · split
        · exact resolve_of_locked e _ _ h
        · split
          · exact chargeback_of_locked e _ _ h
          · rfl

/-- A deposit does not touch other clients' accounts. -/
theorem deposit_accounts_ne (e : Engine) (c tx : Nat) (amt : Option String)
    (c' : Nat) (hne : c' ≠ c) : (e.deposit c tx amt).accounts c' = e.accounts c' := by
  unfold Engine.deposit
  split
  · rfl
  · split
    · rfl
    · cases amt with
      | none => rfl
      | some s =>
        cases hp : parse_amount s with
        | error err => simp [hp]
        | ok v => simp [hp, upd, hne]

/-- A withdrawal does not touch other clients' accounts. -/
theorem withdrawal_accounts_ne (e : Engine) (c tx : Nat) (amt : Option String)
    (c' : Nat) (hne : c' ≠ c) : (e.withdrawal c tx amt).accounts c' = e.accounts c' := by
  unfold Engine.withdrawal
  split
  · rfl
  · split
    · rfl
    · cases amt with
      | none => rfl
      | some s =>
        cases hp : parse_amount s with
        | error err => simp [hp]
        | ok v =>
          simp only [hp]
          split <;> simp [upd, hne]

/-- A dispute does not touch other clients' accounts. -/
theorem dispute_accounts_ne (e : Engine) (c tx : Nat)
    (c' : Nat) (hne : c' ≠ c) : (e.dispute c tx).accounts c' = e.accounts c' := by
  unfold Engine.dispute
  split
  · rfl
  · cases ht : e.transactions tx with
    | none => rfl
    | some t =>
      simp only [ht]
      split
      · rfl
      · simp [upd, hne]

/-- A resolve does not touch other clients' accounts. -/
theorem resolve_accounts_ne (e : Engine) (c tx : Nat)
    (c' : Nat) (hne : c' ≠ c) : (e.resolve c tx).accounts c' = e.accounts c' := by
  unfold Engine.resolve
  split
  · rfl
  · cases ht : e.transactions tx with
    | none => rfl
    | some t =>
      simp only [ht]
      split
      · rfl
      · split <;> simp [upd, hne]

/-- A chargeback does not touch other clients' accounts. -/
theorem chargeback_accounts_ne (e : Engine) (c tx : Nat)
    (c' : Nat) (hne : c' ≠ c) : (e.chargeback c tx).accounts c' = e.accounts c' := by
  unfold Engine.chargeback
  split
  · rfl
  · cases ht : e.transactions tx with
    | none => rfl
    | some t =>
      simp only [ht]
      split
      · rfl
      · split <;> simp [upd, hne]

/-- No event touches the account of a client it does not name. -/
theorem apply_accounts_ne (e : Engine) (row : InputRow) (c' : Nat)
    (hne : c' ≠ row.client_id) : (e.apply row).accounts c' = e.accounts c' := by
  rw [Engine.apply]
  split
  · exact deposit_accounts_ne e _ _ _ c' hne
  · split
    · exact withdrawal_accounts_ne e _ _ _ c' hne
    · split
      · exact dispute_accounts_ne e _ _ c' hne
      · split
        · exact resolve_accounts_ne e _ _ c' hne
        · split
          · exact chargeback_accounts_ne e _ _ c' hne
          · rfl

/-- The locked flag is monotonic: no event unlocks a locked client. -/
theorem apply_is_locked_mono (e : Engine) (row : InputRow) (c : Nat)
    (h : e.is_locked c = true) : (e.apply row).is_locked c = true := by
  by_cases hc : row.client_id = c
  · rw [apply_of_locked e row (by rw [hc]; exact h)]
    exact h
  · unfold Engine.is_locked at h ⊢
    rw [apply_accounts_ne e row c (fun hh => hc hh.symm)]
    exact h

/-- A deposit whose transaction id is already in the table is dropped with
no effect. -/
theorem deposit_dup (e : Engine) (c tx : Nat) (amt : Option String)
    (h : (e.transactions tx).isSome = true) : e.deposit c tx amt = e := by
  unfold Engine.deposit
  split
  · rfl
  · simp [h]

/-- A withdrawal whose transaction id is already in the table is dropped
with no effect. -/
theorem withdrawal_dup (e : Engine) (c tx : Nat) (amt : Option String)
    (h : (e.transactions tx).isSome = true) : e.withdrawal c tx amt = e := by
  unfold Engine.withdrawal
  split
  · rfl
  · simp [h]

/-- The empty engine satisfies the reachability invariant. -/
theorem inv_init : Inv Engine.init := by
  constructor
  · intro tx t h
    simp [Engine.init] at h
  · intro c a h
    simp [Engine.init] at h

/-- Under the invariant no stored transaction has kind `Deposit`, so a
dispute always falls into an early return and leaves the engine unchanged. -/
theorem dispute_noop (e : Engine) (c tx : Nat) (h : Inv e) : e.dispute c tx = e := by
  unfold Engine.dispute
  split
  · rfl
  · cases ht : e.transactions tx with
    | none => simp only [ht]
    | some t =>
      have hk := h.1 tx t ht
      simp only [ht]
      rw [if_pos]
      exact Or.inr (Or.inl (by rw [hk.1]; simp))

/-- Under the invariant a resolve always falls into an early return. -/
theorem resolve_noop (e : Engine) (c tx : Nat) (h : Inv e) : e.resolve c tx = e := by
  unfold Engine.resolve
  split
  · rfl
  · cases ht : e.transactions tx with
    | none => simp only [ht]
    | some t =>
      have hk := h.1 tx t ht
      simp only [ht]
      rw [if_pos]
      exact Or.inr (Or.inl (by rw [hk.1]; simp))

/-- Under the invariant a chargeback always falls into an early return. -/
theorem chargeback_noop (e : Engine) (c tx : Nat) (h : Inv e) : e.chargeback c tx = e := by
  unfold Engine.chargeback
  split
  · rfl
  · cases ht : e.transactions tx with
    | none => simp only [ht]
    | some t =>
      have hk := h.1 tx t ht
      simp only [ht]
      rw [if_pos]
      exact Or.inr (Or.inl (by rw [hk.1]; simp))

/-- A deposit preserves the reachability invariant. -/
theorem inv_deposit (e : Engine) (c tx : Nat) (amt : Option String) (h : Inv e) :
    Inv (e.deposit c tx amt) := by
  unfold Engine.deposit
  split
  · exact h
  split
  · exact h
  cases amt with
  | none => exact h
  | some s =>
    cases hp : parse_amount s with
    | error err => simp only [hp]; exact h
    | ok v =>
      simp only [hp]
      have hv := parse_amount_ok s v hp
      constructor
      · intro tx' t' h'
        simp only [upd] at h'
        by_cases htx : tx' = tx
        · rw [if_pos htx, Option.some.injEq] at h'
          subst h'
          exact ⟨rfl, rfl⟩
        · rw [if_neg htx] at h'
          exact h.1 tx' t' h'
      · intro c' a' h'
        simp only [upd] at h'
        by_cases hc : c' = c
        · rw [if_pos hc, Option.some.injEq] at h'
          subst h'
          cases hacc : e.accounts c with
          | none =>
            refine ⟨by simp [hacc, Account.default], by simp [hacc, Account.default], ?_⟩
            simp only [hacc, Option.getD, Account.default, Dec.val_add, Dec.val_zero]
            linarith [hv.1]
          | some a0 =>
            have h0 := h.2 c a0 hacc
            refine ⟨by simp [hacc, h0.1], by simp [hacc, h0.2.1], ?_⟩
            simp only [hacc, Option.getD, Dec.val_add]
            linarith [h0.2.2, hv.1]
        · rw [if_neg hc] at h'
          exact h.2 c' a' h'

/-- A withdrawal preserves the reachability invariant. -/
theorem inv_withdrawal (e : Engine) (c tx : Nat) (amt : Option String) (h : Inv e) :
    Inv (e.withdrawal c tx amt) := by
  unfold Engine.withdrawal
  split
  · exact h
  split
  · exact h
  cases amt with
  | none => exact h
  | some s =>
    cases hp : parse_amount s with
    | error err => simp only [hp]; exact h
    | ok v =>
      simp only [hp]
      have hv := parse_amount_ok s v hp
      split
      · -- insufficient funds: the (possibly fresh) account is stored unchanged
        constructor
        · exact h.1
        · intro c' a' h'
          simp only [upd] at h'
          by_cases hc : c' = c
          · rw [if_pos hc, Option.some.injEq] at h'
            subst h'
            cases hacc : e.accounts c with
            | none =>
              refine ⟨by simp [hacc, Account.default], by simp [hacc, Account.default], ?_⟩
              simp [hacc, Account.default, Dec.val_zero]
            | some a0 =>
              have h0 := h.2 c a0 hacc
              exact ⟨by simp [hacc, h0.1], by simp [hacc, h0.2.1],
                by simp only [hacc, Option.getD]; exact h0.2.2⟩
          · rw [if_neg hc] at h'
            exact h.2 c' a' h'
      · -- sufficient funds
        rename_i hlt
        constructor
        · intro tx' t' h'
          simp only [upd] at h'
          by_cases htx : tx' = tx
          · rw [if_pos htx, Option.some.injEq] at h'
            subst h'
            exact ⟨rfl, rfl⟩
          · rw [if_neg htx] at h'
            exact h.1 tx' t' h'
        · intro c' a' h'
          simp only [upd] at h'
          by_cases hc : c' = c
          · rw [if_pos hc, Option.some.injEq] at h'
            subst h'
            rw [Dec.lt_iff, not_lt] at hlt
            cases hacc : e.accounts c with
            | none =>
              refine ⟨by simp [hacc, Account.default], by simp [hacc, Account.default], ?_⟩
              simp only [hacc, Option.getD, Account.default, Dec.val_sub]
              simp only [hacc, Option.getD, Account.default] at hlt
              linarith
            | some a0 =>
              have h0 := h.2 c a0 hacc
              refine ⟨by simp [hacc, h0.1], by simp [hacc, h0.2.1], ?_⟩
              simp only [hacc, Option.getD, Dec.val_sub]
              simp only [hacc, Option.getD] at hlt
              linarith
          · rw [if_neg hc] at h'
            exact h.2 c' a' h'

/-- One step of `Engine::apply` preserves the reachability invariant. -/
theorem inv_apply (e : Engine) (row : InputRow) (h : Inv e) : Inv (e.apply row) := by
  rw [Engine.apply]
  split
  · exact inv_deposit _ _ _ _ h
  split
  · exact inv_withdrawal _ _ _ _ h
  split
  · rw [dispute_noop _ _ _ h]; exact h
  split
  · rw [resolve_noop _ _ _ h]; exact h
  split
  · rw [chargeback_noop _ _ _ h]; exact h
  exact h

/-- Every engine reachable from an invariant state satisfies the
reachability invariant. -/
theorem inv_applyAll (e : Engine) (rows : List InputRow) (h : Inv e) :
    Inv (e.applyAll rows) := by
  induction rows generalizing e with
  | nil => exact h
  | cons r rs ih => exact ih _ (inv_apply _ _ h)

/-- A digit character is not a decimal point. -/
theorem charOfNat_digit_ne_dot (k : Nat) (hk : k < 10) : Char.ofNat (48 + k) ≠ '.' := by
  interval_cases k <;> decide

/-- `natDigits` produces only digit characters, never a decimal point. -/
theorem natDigits_ne_dot (fuel : Nat) : ∀ (n : Nat), ∀ c ∈ natDigits fuel n, c ≠ '.' := by
  induction fuel with
  | zero =>
    intro n c hc
    simp [natDigits] at hc
  | succ f ih =>
    intro n c hc
    rw [natDigits] at hc
    split at hc
    · rename_i hn
      rw [List.mem_singleton] at hc
      subst hc
      exact charOfNat_digit_ne_dot n hn
    · rw [List.mem_append] at hc
      cases hc with
      | inl h => exact ih _ c h
      | inr h =>
        rw [List.mem_singleton] at h
        subst h
        exact charOfNat_digit_ne_dot _ (Nat.mod_lt _ (by norm_num))

/-- `dropWhile` passes over a prefix on which the predicate holds. -/
theorem dropWhile_append_of_all {α : Type} (p : α → Bool) (l₁ l₂ : List α)
    (h : ∀ a ∈ l₁, p a = true) : (l₁ ++ l₂).dropWhile p = l₂.dropWhile p := by
  induction l₁ with
  | nil => rfl
  | cons x xs ih =>
    rw [List.cons_append, List.dropWhile_cons, h x (List.mem_cons_self x xs)]
    exact ih (fun a ha => h a (List.mem_cons_of_mem x ha))

/-- A rendered string without a decimal point has no fractional digits. -/
theorem countFrac_no_dot (l : List Char) (h : ∀ c ∈ l, c ≠ '.') :
    countFrac ⟨l⟩ = 0 := by
  have hnil : l.dropWhile (fun c => decide (c ≠ '.')) = [] := by
    rw [List.dropWhile_eq_nil_iff]
    intro x hx
    simpa using h x hx
  unfold countFrac
  rw [hnil]
  rfl

/-- The fractional-digit count of a rendered string is the length of the
segment after its (first) decimal point. -/
theorem countFrac_with_dot (l₁ l₂ : List Char) (h : ∀ c ∈ l₁, c ≠ '.') :
    countFrac ⟨l₁ ++ '.' :: l₂⟩ = l₂.length := by
  have h1 : (l₁ ++ '.' :: l₂).dropWhile (fun c => decide (c ≠ '.')) = '.' :: l₂ := by
    rw [dropWhile_append_of_all _ l₁ _ (fun a ha => by simpa using h a ha)]
    rw [List.dropWhile_cons]
    simp
  unfold countFrac
  rw [h1]
  simp

/-- The rendered string of a decimal shows exactly its scale-many digits
after the decimal point (and no point at all at scale 0). -/
theorem countFrac_render (d : Dec) : countFrac d.render = d.s := by
  rw [Dec.render]
  by_cases h0 : d.s = 0
  · rw [if_pos h0, h0]
    apply countFrac_no_dot
    intro c hc
    rw [List.mem_append] at hc
    cases hc with
    | inl h =>
      split at h
      · rw [List.mem_singleton] at h
        subst h
        decide
      · simp at h
    | inr h => exact natDigits_ne_dot _ _ c h
  · rw [if_neg h0]
    show countFrac
        ⟨((if d.m < 0 then ['-'] else []) ++
            (List.replicate (d.s + 1 - (natDigits (d.m.natAbs + 1) d.m.natAbs).length) '0' ++
              natDigits (d.m.natAbs + 1) d.m.natAbs).take
              ((List.replicate (d.s + 1 - (natDigits (d.m.natAbs + 1) d.m.natAbs).length) '0' ++
                natDigits (d.m.natAbs + 1) d.m.natAbs).length - d.s)) ++
          '.' :: (List.replicate (d.s + 1 - (natDigits (d.m.natAbs + 1) d.m.natAbs).length) '0' ++
              natDigits (d.m.natAbs + 1) d.m.natAbs).drop
              ((List.replicate (d.s + 1 - (natDigits (d.m.natAbs + 1) d.m.natAbs).length) '0' ++
                natDigits (d.m.natAbs + 1) d.m.natAbs).length - d.s)⟩ = d.s
    set digs0 := natDigits (d.m.natAbs + 1) d.m.natAbs with hdigs0
    set digs := List.replicate (d.s + 1 - digs0.length) '0' ++ digs0 with hdigs
    have hlen : digs.length = (d.s + 1 - digs0.length) + digs0.length := by
      rw [hdigs, List.length_append, List.length_replicate]
    have hne : ∀ c ∈ digs, c ≠ '.' := by
      intro c hc
      rw [hdigs, List.mem_append] at hc
      cases hc with
      | inl h => rw [List.eq_of_mem_replicate h]; decide
      | inr h => exact natDigits_ne_dot _ _ c h
    have hsign : ∀ c ∈ (if d.m < 0 then ['-'] else []), c ≠ '.' := by
      intro c hc
      split at hc
      · rw [List.mem_singleton] at hc
        subst hc
        decide
      · simp at hc
    rw [countFrac_with_dot _ _
      (by
        intro c hc
        rw [List.mem_append] at hc
        cases hc with
        | inl h => exact hsign c h
        | inr h => exact hne c (List.take_subset _ _ h))]
    rw [List.length_drop]
    omega

/-- C1: a fresh deposit does create the account and add the parsed amount
to `available`, and it inserts an undisputed record for the transaction
id — but the record's kind is `Withdrawal`, not `Deposit` as the claim
states: evaluating the deposit `(client 1, tx 1, "10")` on the empty
engine shows the stored kind. -/
theorem C1_deposit_stores_withdrawal_kind :
    (Engine.init.deposit 1 1 (some "10")).accounts 1
      = some ⟨⟨10, 0⟩, Dec.zero, false⟩ ∧
    (Engine.init.deposit 1 1 (some "10")).transactions 1
      = some ⟨1, TransactionKind.Withdrawal, ⟨10, 0⟩, false⟩ ∧
    TransactionKind.Withdrawal ≠ TransactionKind.Deposit :=
  ⟨by decide, by decide, by decide⟩

/-- C2: replaying `deposit 10; dispute; chargeback; deposit 5; withdrawal 1`
for client 1 does NOT yield `(0, 0, locked)`: because deposits are stored
with kind `Withdrawal`, the dispute and the chargeback are dropped, the
account never locks, and the last two events apply, leaving
`available = 14`, `held = 0`, `locked = false`. -/
theorem C2_post_chargeback_sequence_eval :
    (Engine.init.applyAll c2rows).accounts 1 = some ⟨⟨14, 0⟩, ⟨0, 0⟩, false⟩ := by
  decide

/-- C3: on every engine reachable from the empty one, every stored
transaction has kind `Withdrawal` (none has kind `Deposit`); dispute,
resolve and chargeback therefore leave the engine unchanged, every
account's `held` is exactly zero, and no account is ever locked. -/
theorem C3_transaction_table_withdrawal_only (rows : List InputRow) :
    (∀ tx t, (Engine.init.applyAll rows).transactions tx = some t →
      t.kind = TransactionKind.Withdrawal ∧ t.kind ≠ TransactionKind.Deposit) ∧
    (∀ c tx, (Engine.init.applyAll rows).dispute c tx = Engine.init.applyAll rows ∧
      (Engine.init.applyAll rows).resolve c tx = Engine.init.applyAll rows ∧
      (Engine.init.applyAll rows).chargeback c tx = Engine.init.applyAll rows) ∧
    (∀ c a, (Engine.init.applyAll rows).accounts c = some a →
      a.held = Dec.zero ∧ a.locked = false) := by
  have hInv := inv_applyAll Engine.init rows inv_init
  refine ⟨?_, ?_, ?_⟩
  · intro tx t ht
    have hk := (hInv.1 tx t ht).1
    exact ⟨hk, by rw [hk]; simp⟩
  · intro c tx
    exact ⟨dispute_noop _ c tx hInv, resolve_noop _ c tx hInv, chargeback_noop _ c tx hInv⟩
  · intro c a ha
    exact ⟨(hInv.2 c a ha).1, (hInv.2 c a ha).2.1⟩

/-- Witness for C3 at the single-deposit run: the stored transaction has
kind `Withdrawal` and a dispute of it is a no-op. -/
theorem C3_witness :
    (Engine.init.applyAll rows3).transactions 1
      = some ⟨1, TransactionKind.Withdrawal, ⟨10, 0⟩, false⟩ ∧
    (⟨1, TransactionKind.Withdrawal, ⟨10, 0⟩, false⟩ : Transaction).kind
      = TransactionKind.Withdrawal ∧
    (Engine.init.applyAll rows3).dispute 1 1 = Engine.init.applyAll rows3 :=
  ⟨by decide,
   ((C3_transaction_table_withdrawal_only rows3).1 1 _ (by decide)).1,
   ((C3_transaction_table_withdrawal_only rows3).2.1 1 1).1⟩

/-- C4: on any state, a dispute whose client is unlocked, whose
transaction exists, belongs to that client, has kind `Deposit` and is not
yet disputed, moves the transaction's amount from `available` (which may
go negative) to `held` and marks the transaction disputed. -/
theorem C4_dispute_moves_amount (e : Engine) (c tx : Nat) (t : Transaction)
    (hl : e.is_locked c = false) (ht : e.transactions tx = some t)
    (hc : t.client_id = c) (hk : t.kind = TransactionKind.Deposit)
    (hd : t.disputed = false) :
    (availableOf (e.dispute c tx) c).val = (availableOf e c).val - t.amount.val ∧
    (heldOf (e.dispute c tx) c).val = (heldOf e c).val + t.amount.val ∧
    (e.dispute c tx).transactions tx = some { t with disputed := true } := by
  unfold Engine.dispute
  simp only [hl, Bool.false_eq_true, if_false, ht]
  rw [if_neg (by simp [hc, hk, hd])]
  refine ⟨?_, ?_, ?_⟩
  · simp [availableOf, upd, Dec.val_sub]
  · simp [heldOf, upd, Dec.val_add]
  · simp [upd]

/-- Witness for C4 on a concrete state holding a deposit-kind
transaction of amount 5. -/
theorem C4_witness :
    (availableOf (engDeposit5.dispute 1 1) 1).val
      = (availableOf engDeposit5 1).val - (⟨5, 0⟩ : Dec).val ∧
    (heldOf (engDeposit5.dispute 1 1) 1).val
      = (heldOf engDeposit5 1).val + (⟨5, 0⟩ : Dec).val ∧
    (engDeposit5.dispute 1 1).transactions 1
      = some ⟨1, TransactionKind.Deposit, ⟨5, 0⟩, true⟩ :=
  C4_dispute_moves_amount engDeposit5 1 1 ⟨1, TransactionKind.Deposit, ⟨5, 0⟩, false⟩
    (by decide) (by decide) rfl rfl rfl

/-- C5: on every engine reachable from the empty one, every existing
account's `available` balance is nonnegative. -/
theorem C5_available_never_negative (rows : List InputRow) (c : Nat) (a : Account)
    (h : (Engine.init.applyAll rows).accounts c = some a) : 0 ≤ a.available.val :=
  ((inv_applyAll Engine.init rows inv_init).2 c a h).2.2

/-- Witness for C5 at the single-deposit run. -/
theorem C5_witness : 0 ≤ ((⟨⟨10, 0⟩, Dec.zero, false⟩ : Account)).available.val :=
  C5_available_never_negative rows3 1 _ (by decide)

/-- C6: once a client is locked, any event naming that client leaves the
whole engine (in particular that client's account and transactions)
unchanged, and no event of any kind ever unlocks the client. -/
theorem C6_locked_client_inert (e : Engine) (row : InputRow) (c : Nat)
    (h : e.is_locked c = true) :
    (row.client_id = c → e.apply row = e) ∧ (e.apply row).is_locked c = true :=
  ⟨fun hc => apply_of_locked e row (by rw [hc]; exact h),
   apply_is_locked_mono e row c h⟩

/-- Witness for C6: a deposit aimed at a concrete locked client changes
nothing and the client stays locked. -/
theorem C6_witness :
    engLocked.apply depositRow = engLocked ∧
    (engLocked.apply depositRow).is_locked 1 = true :=
  ⟨(C6_locked_client_inert engLocked depositRow 1 (by decide)).1 rfl,
   (C6_locked_client_inert engLocked depositRow 1 (by decide)).2⟩

/-- C7 counterexample: a successful parse is NOT normalized to exactly 4
fractional digits — `parse_amount "10"` returns the value at scale 0
(`round_dp(4)` never pads a scale below 4). -/
theorem C7_counterexample_no_padding :
    parse_amount "10" = Except.ok ⟨10, 0⟩ ∧ (⟨10, 0⟩ : Dec).s ≠ 4 :=
  ⟨by decide, by decide⟩

/-- C7 amended: the parser trims whitespace and fails on empty input, on
malformed text, on non-positive values and on more than 4 fractional
digits; on success it returns the parsed value unchanged (its scale, at
most 4, is preserved — no padding to 4 digits).  The concrete examples of
the claim all hold. -/
theorem C7_amended_parse_amount :
    (∀ s : String, rustTrim s = "" → parse_amount s = .error "empty amount") ∧
    (∀ s err, rustTrim s ≠ "" → decimalFromStr (rustTrim s) = .error err →
      parse_amount s = .error "bad amount") ∧
    (∀ s d, decimalFromStr (rustTrim s) = .ok d → d.val ≤ 0 →
      parse_amount s = .error "amount must be positive") ∧
    (∀ s d, decimalFromStr (rustTrim s) = .ok d → 0 < d.val → 4 < d.s →
      parse_amount s = .error "too many decimal places") ∧
    (∀ s d, decimalFromStr (rustTrim s) = .ok d → 0 < d.val → d.s ≤ 4 →
      parse_amount s = .ok d) ∧
    parse_amount "0" = .error "amount must be positive" ∧
    parse_amount "-1" = .error "amount must be positive" ∧
    parse_amount "" = .error "empty amount" ∧
    parse_amount "1.23456" = .error "too many decimal places" ∧
    parse_amount "1.2345" = .ok ⟨12345, 4⟩ ∧
    (⟨12345, 4⟩ : Dec).val = 1.2345 := by
  have hnotempty : ∀ (s : String) (d : Dec),
      decimalFromStr (rustTrim s) = .ok d → rustTrim s ≠ "" := by
    intro s d h2 hh
    rw [hh] at h2
    have he : decimalFromStr "" = Except.error "empty" := rfl
    rw [he] at h2
    cases h2
  refine ⟨?_, ?_, ?_, ?_, ?_, by decide, by decide, by decide, by decide, by decide,
    by norm_num [Dec.val]⟩
  · intro s hs
    rw [parse_amount, if_pos hs]
  · intro s err h1 h2
    rw [parse_amount, if_neg h1, h2]
  · intro s d h2 hval
    rw [parse_amount, if_neg (hnotempty s d h2), h2]
    show (if d.le Dec.zero then Except.error "amount must be positive"
      else if 4 < d.s then Except.error "too many decimal places"
      else Except.ok (d.roundDp 4)) = Except.error "amount must be positive"
    rw [if_pos (by rw [Dec.le_iff, Dec.val_zero]; exact hval)]
  · intro s d h2 hval hs
    rw [parse_amount, if_neg (hnotempty s d h2), h2]
    show (if d.le Dec.zero then Except.error "amount must be positive"
      else if 4 < d.s then Except.error "too many decimal places"
      else Except.ok (d.roundDp 4)) = Except.error "too many decimal places"
    rw [if_neg (by rw [Dec.le_iff, Dec.val_zero]; linarith), if_pos hs]
  · intro s d h2 hval hs
    rw [parse_amount, if_neg (hnotempty s d h2), h2]
    show (if d.le Dec.zero then Except.error "amount must be positive"
      else if 4 < d.s then Except.error "too many decimal places"
      else Except.ok (d.roundDp 4)) = Except.ok d
    rw [if_neg (by rw [Dec.le_iff, Dec.val_zero]; linarith),
      if_neg (by omega), Dec.roundDp_of_le d 4 hs]

/-- Witness for C7 amended, instantiating the success clause at `"2"`. -/
theorem C7_amended_witness : parse_amount "2" = Except.ok ⟨2, 0⟩ :=
  C7_amended_parse_amount.2.2.2.2.1 "2" ⟨2, 0⟩ (by decide)
    (by norm_num [Dec.val]) (by norm_num)

/-- C8: a deposit or withdrawal whose transaction id is already present in
the table — whichever client owns the old record — leaves the engine
entirely unchanged: no balance moves and the stored record keeps its
client, kind, amount and disputed flag. -/
theorem C8_duplicate_transaction_id_noop (e : Engine) (c tx : Nat) (amt : Option String)
    (h : (e.transactions tx).isSome = true) :
    e.deposit c tx amt = e ∧ e.withdrawal c tx amt = e :=
  ⟨deposit_dup e c tx amt h, withdrawal_dup e c tx amt h⟩

/-- Witness for C8: reusing transaction id 1 from a different client. -/
theorem C8_witness :
    engTx.deposit 2 1 (some "5") = engTx ∧ engTx.withdrawal 2 1 (some "5") = engTx :=
  C8_duplicate_transaction_id_noop engTx 2 1 (some "5") (by decide)

/-- C9: a withdrawal whose parsed amount exceeds the observed `available`
balance leaves `available` and `held` unchanged and inserts no transaction
record anywhere in the table. -/
theorem C9_insufficient_funds_noop (e : Engine) (c tx : Nat) (str : String) (a : Dec)
    (hp : parse_amount str = .ok a) (hgt : (availableOf e c).val < a.val) :
    availableOf (e.withdrawal c tx (some str)) c = availableOf e c ∧
    heldOf (e.withdrawal c tx (some str)) c = heldOf e c ∧
    (e.withdrawal c tx (some str)).transactions = e.transactions := by
  unfold Engine.withdrawal
  split
  · exact ⟨rfl, rfl, rfl⟩
  split
  · exact ⟨rfl, rfl, rfl⟩
  simp only [hp]
  rw [if_pos (by rw [Dec.lt_iff]; exact hgt)]
  refine ⟨?_, ?_, rfl⟩
  · simp [availableOf, upd]
  · simp [heldOf, upd]

/-- Witness for C9: withdrawing 5 from the empty engine (available 0). -/
theorem C9_witness :
    availableOf (Engine.init.withdrawal 1 1 (some "5")) 1 = availableOf Engine.init 1 ∧
    heldOf (Engine.init.withdrawal 1 1 (some "5")) 1 = heldOf Engine.init 1 ∧
    (Engine.init.withdrawal 1 1 (some "5")).transactions = Engine.init.transactions :=
  C9_insufficient_funds_noop Engine.init 1 1 "5" ⟨5, 0⟩ (by decide)
    (by norm_num [availableOf, Engine.init, Account.default, Dec.zero, Dec.val])

/-- C10 counterexample: an account whose `available` is numerically the
integer 2 (deposited as `"2.00"`) renders as `"2.00"`, not `"2"` — stored
trailing zeros within the scale are kept. -/
theorem C10_counterexample_trailing_zeros_kept :
    (Engine.init.applyAll c10rows).accounts 1 = some ⟨⟨200, 2⟩, ⟨0, 0⟩, false⟩ ∧
    (⟨200, 2⟩ : Dec).val = 2 ∧
    fmt ⟨200, 2⟩ = "2.00" ∧ fmt ⟨200, 2⟩ ≠ "2" :=
  ⟨by decide, by norm_num [Dec.val], by decide, by decide⟩

/-- C10 amended: every rendered decimal field shows exactly the value's
stored scale (after `round_dp(4)`) many fractional digits — hence at most
4 and never padded; a value stored at scale 0 (such as the integer 2)
renders with no decimal point at all. -/
theorem C10_amended_rendering (d : Dec) :
    countFrac (fmt d) = (d.roundDp 4).s ∧
    countFrac (fmt d) ≤ 4 ∧
    (d.s ≤ 4 → countFrac (fmt d) = d.s) := by
  have h1 : countFrac (fmt d) = (d.roundDp 4).s := countFrac_render (d.roundDp 4)
  have h2 : (d.roundDp 4).s = if d.s ≤ 4 then d.s else 4 := Dec.roundDp_s d 4
  refine ⟨h1, ?_, ?_⟩
  · rw [h1, h2]
    split <;> omega
  · intro hs
    rw [h1, h2, if_pos hs]

/-- Witness for C10 amended at the scale-2 value 2.00. -/
theorem C10_amended_witness : countFrac (fmt ⟨200, 2⟩) = 2 :=
  (C10_amended_rendering ⟨200, 2⟩).2.2 (by norm_num)

end TransactionEngine
